import Mathlib

/-!
Verification development for a grid-based raycasting engine
(`main.py`: classes `Map`, `Player`, `Raycaster`).

The numeric code of the engine is embedded shallowly over an arbitrary
linear ordered field `α` (instantiated at `ℚ` for concrete evaluation and
at `ℝ` where trigonometry enters).  Python's IEEE `float('inf')` values,
which appear as the per-axis step distances of axis-aligned rays, are
modelled by the two-constructor type `EF` below.  Python's `int(...)`
truncation toward zero is modelled by `pyInt`.
-/

namespace NEA

/-- Extended field values: a finite value or `+inf`.  Mirrors the use of
`float('inf')` in `Raycaster._cast_ray` (`main.py` lines 172-173). -/
inductive EF (α : Type) where
  | fin (v : α)
  | inf

namespace EF

/-- Strict comparison, matching IEEE semantics on the reachable values:
`inf < x` is false for every `x` (including `inf`), `v < inf` is true for
finite `v`. -/
def blt {α : Type} [LinearOrder α] : EF α → EF α → Bool
  | inf, _ => false
  | fin _, inf => true
  | fin a, fin b => decide (a < b)

/-- Addition: anything plus `inf` is `inf` (matches IEEE on the values the
DDA loop can reach, where `-inf` and `nan` never occur). -/
def add {α : Type} [Add α] : EF α → EF α → EF α
  | inf, _ => inf
  | fin _, inf => inf
  | fin a, fin b => fin (a + b)

/-- Left multiplication by a finite coefficient.  In `_cast_ray` the
coefficient multiplying an infinite step distance is always positive
(it is `1 - frac` with `frac ∈ [0,1)` since the corresponding ray
component is `0`), so `c * inf = inf` matches IEEE on all reachable
states. -/
def smul {α : Type} [Mul α] (c : α) : EF α → EF α
  | fin v => fin (c * v)
  | inf => inf

/-- Underlying finite value; `0` as junk at `inf`.  In `_cast_ray` the
side-distance and step-distance of the axis recorded in `hit_side` are
finite whenever at least one DDA step was taken, so the junk value is
never read on the runs the theorems below are about. -/
def val {α : Type} [Zero α] : EF α → α
  | fin v => v
  | inf => 0

end EF

/-- Tile constant `Map.WALL` (`main.py` line 26). -/
def Map.WALL : ℕ := 1

/-- Tile constant `Map.EMPTY` (`main.py` line 27). -/
def Map.EMPTY : ℕ := 0

/-- Each map tile is 64x64 pixels (`TILE_SIZE`, `main.py` line 13). -/
def TILE_SIZE : ℕ := 64

/-- The game world: a 2D grid of integers, `1` = wall, `0` = empty
(`Map.__init__`, `main.py` lines 29-51). -/
structure Map where
  grid : List (List ℕ)

/-- `self.num_rows = len(self.grid)` (`main.py` line 50). -/
def Map.num_rows (m : Map) : ℕ := m.grid.length

/-- `self.num_cols = len(self.grid[0])` (`main.py` line 51). -/
def Map.num_cols (m : Map) : ℕ := m.grid.headI.length

/-- `Map.get_tile` (`main.py` lines 53-58): the stored tile when
`0 <= row < num_rows and 0 <= col < num_cols`, else `WALL`.  The inner
`getD` default is never used on rectangular grids (the only grids the
program constructs; a ragged grid would raise `IndexError` in Python). -/
def Map.get_tile (m : Map) (col row : ℤ) : ℕ :=
  if 0 ≤ row ∧ row < (m.num_rows : ℤ) ∧ 0 ≤ col ∧ col < (m.num_cols : ℤ) then
    (m.grid.getD row.toNat []).getD col.toNat Map.WALL
  else Map.WALL

/-- `Map.is_wall` (`main.py` lines 60-65): world pixel coordinates are
converted to grid coordinates by floor division by `TILE_SIZE`. -/
def Map.is_wall {α : Type} [LinearOrderedField α] [FloorRing α]
    (m : Map) (world_x world_y : α) : Bool :=
  m.get_tile ⌊world_x / (TILE_SIZE : α)⌋ ⌊world_y / (TILE_SIZE : α)⌋ == Map.WALL

/-- The map literal built by `Map.__init__` (`main.py` lines 32-49). -/
def builtinMap : Map :=
  ⟨[[1, 1, 1, 1, 1, 1, 1, 1, 1, 1, 1, 1, 1, 1, 1, 1],
    [1, 0, 0, 0, 0, 0, 0, 0, 0, 0, 0, 0, 0, 0, 0, 1],
    [1, 0, 1, 0, 1, 0, 0, 0, 0, 0, 0, 0, 0, 0, 0, 1],
    [1, 0, 1, 1, 1, 0, 1, 1, 1, 1, 0, 1, 1, 1, 1, 1],
    [1, 0, 1, 1, 1, 0, 0, 0, 0, 0, 0, 1, 0, 1, 0, 1],
    [1, 0, 1, 1, 1, 0, 0, 0, 0, 0, 0, 0, 0, 1, 0, 1],
    [1, 0, 1, 1, 0, 0, 1, 1, 1, 0, 1, 1, 1, 1, 0, 1],
    [1, 0, 0, 0, 0, 0, 1, 0, 1, 0, 0, 1, 0, 1, 0, 1],
    [1, 0, 1, 1, 1, 0, 1, 1, 1, 0, 0, 1, 0, 0, 0, 1],
    [1, 0, 1, 0, 0, 0, 0, 1, 0, 0, 0, 1, 0, 1, 0, 1],
    [1, 0, 1, 1, 0, 0, 0, 1, 0, 0, 1, 0, 0, 1, 0, 1],
    [1, 0, 1, 0, 1, 0, 0, 1, 0, 1, 1, 0, 0, 1, 0, 1],
    [1, 0, 1, 0, 1, 0, 0, 0, 0, 0, 0, 0, 0, 1, 0, 1],
    [1, 0, 1, 1, 1, 0, 1, 1, 1, 1, 0, 0, 0, 0, 0, 1],
    [1, 0, 0, 0, 0, 0, 0, 0, 0, 0, 0, 0, 0, 1, 0, 1],
    [1, 1, 1, 1, 1, 1, 1, 1, 1, 1, 1, 1, 1, 1, 1, 1]]⟩

/-- A 4x4 map whose outer ring is `WALL` and whose interior is `EMPTY`,
used as a concrete end-to-end scenario. -/
def ringMap4 : Map :=
  ⟨[[1, 1, 1, 1],
    [1, 0, 0, 1],
    [1, 0, 0, 1],
    [1, 1, 1, 1]]⟩

/-- Collision buffer `Player.MARGIN` (`main.py` line 75). -/
def MARGIN : ℕ := 10

/-- Player state: world position and viewing angle
(`Player.__init__`, `main.py` lines 77-80). -/
structure Player (α : Type) where
  x : α
  y : α
  angle : α

/-- `Player._try_move` (`main.py` lines 102-118): axis-separated sliding
collision.  The X axis is resolved first; the Y probes use the already
updated x. -/
def Player.try_move {α : Type} [LinearOrderedField α] [FloorRing α]
    (p : Player α) (delta_x delta_y : α) (m : Map) : Player α :=
  let x_clear := !m.is_wall (p.x + delta_x) (p.y - (MARGIN : α)) &&
                 !m.is_wall (p.x + delta_x) (p.y + (MARGIN : α))
  let x1 := if x_clear then p.x + delta_x else p.x
  let y_clear := !m.is_wall (x1 - (MARGIN : α)) (p.y + delta_y) &&
                 !m.is_wall (x1 + (MARGIN : α)) (p.y + delta_y)
  let y1 := if y_clear then p.y + delta_y else p.y
  { p with x := x1, y := y1 }

/-- Maximum ray travel in tiles before giving up
(`Raycaster.MAX_DEPTH`, `main.py` line 126). -/
def MAX_DEPTH : ℕ := 20

/-- State of the DDA loop of `Raycaster._cast_ray`
(`main.py` lines 190-207). -/
structure DDAState (α : Type) where
  sideX : EF α
  sideY : EF α
  col : ℤ
  row : ℤ
  hitSide : ℕ
  wallHit : Bool
  depth : ℕ

/-- The quantities `_cast_ray` computes before its DDA loop
(`main.py` lines 163-192): per-axis step distances, step directions, and
the initial loop state. -/
structure RaySetup (α : Type) where
  deltaX : EF α
  deltaY : EF α
  stepX : ℤ
  stepY : ℤ
  st : DDAState α

/-- `abs(1 / d) if d != 0 else float('inf')`
(`main.py` lines 172-173). -/
def recipAbs {α : Type} [LinearOrderedField α] (d : α) : EF α :=
  if d ≠ 0 then EF.fin |1 / d| else EF.inf

/-- Setup portion of `_cast_ray` (`main.py` lines 163-192), given the ray
direction components `ray_dx = cos θ`, `ray_dy = sin θ` and the player
position. -/
def raySetup {α : Type} [LinearOrderedField α] [FloorRing α]
    (ray_dx ray_dy px py : α) : RaySetup α :=
  let map_col : ℤ := ⌊px / (TILE_SIZE : α)⌋
  let map_row : ℤ := ⌊py / (TILE_SIZE : α)⌋
  let delta_dist_x := recipAbs ray_dx
  let delta_dist_y := recipAbs ray_dy
  let step_x : ℤ := if ray_dx < 0 then -1 else 1
  let side_dist_x :=
    if ray_dx < 0 then EF.smul (px / (TILE_SIZE : α) - map_col) delta_dist_x
    else EF.smul ((map_col : α) + 1 - px / (TILE_SIZE : α)) delta_dist_x
  let step_y : ℤ := if ray_dy < 0 then -1 else 1
  let side_dist_y :=
    if ray_dy < 0 then EF.smul (py / (TILE_SIZE : α) - map_row) delta_dist_y
    else EF.smul ((map_row : α) + 1 - py / (TILE_SIZE : α)) delta_dist_y
  ⟨delta_dist_x, delta_dist_y, step_x, step_y,
   ⟨side_dist_x, side_dist_y, map_col, map_row, 0, false, 0⟩⟩

/-- One iteration of the DDA loop body (`main.py` lines 195-207): advance
along whichever axis has the nearer crossing, record the crossed face,
then test the entered cell and count the step. -/
def ddaStep {α : Type} [LinearOrderedField α] (m : Map) (s : RaySetup α)
    (st : DDAState α) : DDAState α :=
  let st1 :=
    if EF.blt st.sideX st.sideY then
      { st with sideX := st.sideX.add s.deltaX, col := st.col + s.stepX, hitSide := 0 }
    else
      { st with sideY := st.sideY.add s.deltaY, row := st.row + s.stepY, hitSide := 1 }
  let hit := if m.get_tile st1.col st1.row = Map.WALL then true else st1.wallHit
  { st1 with wallHit := hit, depth := st1.depth + 1 }

/-- The DDA loop `while not wall_hit and depth < self.MAX_DEPTH`
(`main.py` lines 191-207), as fuel-indexed iteration.  Since each
iteration increments `depth`, running with fuel `maxDepth` (from
`depth = 0`) performs exactly as many iterations as the Python loop;
`ddaRun_fuel_irrel` below makes this precise. -/
def ddaRun {α : Type} [LinearOrderedField α] (m : Map) (s : RaySetup α)
    (maxDepth : ℕ) : ℕ → DDAState α → DDAState α
  | 0, st => st
  | fuel + 1, st =>
    if st.wallHit = false ∧ st.depth < maxDepth then
      ddaRun m s maxDepth fuel (ddaStep m s st)
    else st

/-- Final DDA state of `_cast_ray` for ray direction `(ray_dx, ray_dy)`. -/
def rayHitState {α : Type} [LinearOrderedField α] [FloorRing α]
    (m : Map) (maxDepth : ℕ) (ray_dx ray_dy px py : α) : DDAState α :=
  let s := raySetup ray_dx ray_dy px py
  ddaRun m s maxDepth maxDepth s.st

/-- Perpendicular wall distance extraction (`main.py` lines 209-213):
`(side_dist - delta_dist) * TILE_SIZE` on the axis recorded in
`hit_side`. -/
def perpOf {α : Type} [LinearOrderedField α] (s : RaySetup α)
    (st : DDAState α) : α :=
  (if st.hitSide = 0 then st.sideX.val - s.deltaX.val
   else st.sideY.val - s.deltaY.val) * (TILE_SIZE : α)

/-- Unclamped perpendicular distance of a full ray cast. -/
def rayPerpRaw {α : Type} [LinearOrderedField α] [FloorRing α]
    (m : Map) (maxDepth : ℕ) (ray_dx ray_dy px py : α) : α :=
  perpOf (raySetup ray_dx ray_dy px py) (rayHitState m maxDepth ray_dx ray_dy px py)

/-- `perp_dist = max(perp_dist, 0.0001)` (`main.py` line 216). -/
def rayPerp {α : Type} [LinearOrderedField α] [FloorRing α]
    (m : Map) (maxDepth : ℕ) (ray_dx ray_dy px py : α) : α :=
  max (rayPerpRaw m maxDepth ray_dx ray_dy px py) (1 / 10000)

/-- Python `int(...)` truncation toward zero. -/
def pyInt {α : Type} [LinearOrderedField α] [FloorRing α] (q : α) : ℤ :=
  if q < 0 then ⌈q⌉ else ⌊q⌋

/-- `wall_height = int((TILE_SIZE / distance) * self.screen_height)`
(`main.py` line 228). -/
def wallHeightOf {α : Type} [LinearOrderedField α] [FloorRing α]
    (screen_height : ℕ) (distance : α) : ℤ :=
  pyInt ((TILE_SIZE : α) / distance * (screen_height : α))

/-- `shade = max(40, min(255, 255 - int(tile_dist * 18)))` with
`tile_dist = distance / TILE_SIZE` (`main.py` lines 231-232). -/
def shadeOf {α : Type} [LinearOrderedField α] [FloorRing α]
    (distance : α) : ℤ :=
  max 40 (min 255 (255 - pyInt (distance / (TILE_SIZE : α) * 18)))

/-- The `distance` variable of `_cast_ray` (`main.py` lines 219-226):
the corrected perpendicular distance when the fisheye toggle is on,
otherwise the uncorrected Euclidean distance
`perp_dist / cos(ray_angle - player_angle)`. -/
noncomputable def castRayDistance (fisheye : Bool) (maxDepth : ℕ) (m : Map)
    (ray_angle player_angle px py : ℝ) : ℝ :=
  let perp := rayPerp m maxDepth (Real.cos ray_angle) (Real.sin ray_angle) px py
  if fisheye then perp else perp / Real.cos (ray_angle - player_angle)

/-- `Raycaster._cast_ray` (`main.py` lines 156-234): returns
`(wall_height, shade, hit_side)`. -/
noncomputable def castRay (fisheye : Bool) (maxDepth screen_height : ℕ) (m : Map)
    (ray_angle player_angle px py : ℝ) : ℤ × ℤ × ℕ :=
  let distance := castRayDistance fisheye maxDepth m ray_angle player_angle px py
  (wallHeightOf screen_height distance, shadeOf distance,
   (rayHitState m maxDepth (Real.cos ray_angle) (Real.sin ray_angle) px py).hitSide)

/-- Toggle `FISHEYE_CORRECTION` (`main.py` line 18): `True`. -/
def FISHEYE_CORRECTION : Bool := true

/-- `Raycaster.cast_all` (`main.py` lines 135-154): one ray per screen
column, left edge of the field of view first; walls hit on north/south
faces are darkened by `shade = int(shade * 0.75)`. -/
noncomputable def castAll (screen_width screen_height : ℕ) (fov : ℝ)
    (maxDepth : ℕ) (p : Player ℝ) (m : Map) : List (ℤ × ℤ) :=
  (List.range screen_width).map fun (col : ℕ) =>
    let ray_angle := (p.angle - fov / 2) + (col : ℝ) * (fov / (screen_width : ℝ))
    let r := castRay FISHEYE_CORRECTION maxDepth screen_height m ray_angle p.angle p.x p.y
    (r.1, if r.2.2 = 1 then pyInt ((r.2.1 : ℝ) * (3 / 4)) else r.2.1)

/-- Field of view constant `FOV = pi/3` (`main.py` line 11). -/
noncomputable def FOV : ℝ := Real.pi / 3

/-- Invariant tracking the X accumulator of the DDA loop (used to bound
the perpendicular distance of rays with `|ray_dx| ≥ 1/2`). -/
def InvX {α : Type} [LinearOrderedField α] (s : RaySetup α) (δ : α)
    (st : DDAState α) : Prop :=
  (∃ v, st.sideX = EF.fin v ∧ v ≤ δ * ((st.depth : α) + 1)) ∧
  (s.deltaY = EF.inf → st.sideY = EF.inf) ∧
  (1 ≤ st.depth → perpOf s st ≤ δ * (st.depth : α) * 64)

/-- Invariant tracking the Y accumulator of the DDA loop (used to bound
the perpendicular distance of rays with `|ray_dy| ≥ 1/2`). -/
def InvY {α : Type} [LinearOrderedField α] (s : RaySetup α) (δ : α)
    (st : DDAState α) : Prop :=
  (∃ w, st.sideY = EF.fin w ∧ w ≤ δ * ((st.depth : α) + 1)) ∧
  (s.deltaX = EF.inf → st.sideX = EF.inf) ∧
  (1 ≤ st.depth → perpOf s st ≤ δ * (st.depth : α) * 64)

/-- `castAll` at the configuration the game constructs
(`main.py` lines 7-11, 126, 305): screen 1280x720, `fov = π/3`,
`maxDepth = 20`. -/
noncomputable def castAllGame (p : Player ℝ) (m : Map) : List (ℤ × ℤ) :=
  castAll 1280 720 (Real.pi / 3) 20 p m

/-! ### Generic lemmas about the DDA loop -/

variable {α : Type} [LinearOrderedField α]

lemma ddaStep_depth (m : Map) (s : RaySetup α) (st : DDAState α) :
    (ddaStep m s st).depth = st.depth + 1 := by
  unfold ddaStep
  split <;> simp

lemma ddaRun_of_wallHit (m : Map) (s : RaySetup α) (maxDepth fuel : ℕ)
    (st : DDAState α) (h : st.wallHit = true) :
    ddaRun m s maxDepth fuel st = st := by
  cases fuel <;> simp [ddaRun, h]

lemma ddaRun_depth_le (m : Map) (s : RaySetup α) (maxDepth : ℕ) :
    ∀ (fuel : ℕ) (st : DDAState α), st.depth ≤ maxDepth →
      (ddaRun m s maxDepth fuel st).depth ≤ maxDepth := by
  intro fuel
  induction fuel with
  | zero => intro st h; exact h
  | succ n ih =>
    intro st h
    rw [ddaRun]
    split
    next hc => exact ih _ (by rw [ddaStep_depth]; omega)
    next hc => exact h

lemma ddaRun_depth_ge (m : Map) (s : RaySetup α) (maxDepth : ℕ) :
    ∀ (fuel : ℕ) (st : DDAState α), st.depth ≤ (ddaRun m s maxDepth fuel st).depth := by
  intro fuel
  induction fuel with
  | zero => intro st; exact le_refl _
  | succ n ih =>
    intro st
    rw [ddaRun]
    split
    next hc => exact le_trans (by rw [ddaStep_depth]; omega) (ih (ddaStep m s st))
    next hc => exact le_refl _

lemma ddaRun_exit (m : Map) (s : RaySetup α) (maxDepth : ℕ) :
    ∀ (fuel : ℕ) (st : DDAState α), st.depth ≤ maxDepth → maxDepth ≤ st.depth + fuel →
      (ddaRun m s maxDepth fuel st).wallHit = true ∨
        (ddaRun m s maxDepth fuel st).depth = maxDepth := by
  intro fuel
  induction fuel with
  | zero =>
    intro st h1 h2
    right
    simp only [ddaRun]
    omega
  | succ n ih =>
    intro st h1 h2
    rw [ddaRun]
    split
    next hc => exact ih _ (by rw [ddaStep_depth]; omega) (by rw [ddaStep_depth]; omega)
    next hc =>
      rcases Bool.eq_false_or_eq_true st.wallHit with hb | hb
      · left; exact hb
      · right
        have hnlt : ¬ st.depth < maxDepth := fun hlt => hc ⟨hb, hlt⟩
        omega

lemma ddaRun_fuel_irrel (m : Map) (s : RaySetup α) (maxDepth : ℕ) :
    ∀ (fuel1 fuel2 : ℕ) (st : DDAState α),
      maxDepth ≤ st.depth + fuel1 → maxDepth ≤ st.depth + fuel2 →
      ddaRun m s maxDepth fuel1 st = ddaRun m s maxDepth fuel2 st := by
  intro fuel1
  induction fuel1 with
  | zero =>
    intro fuel2 st h1 h2
    cases fuel2 with
    | zero => rfl
    | succ n =>
      rw [ddaRun, ddaRun]
      split
      next hc => omega
      next hc => rfl
  | succ n ih =>
    intro fuel2 st h1 h2
    cases fuel2 with
    | zero =>
      rw [ddaRun, ddaRun]
      split
      next hc => omega
      next hc => rfl
    | succ k =>
      rw [ddaRun]
      conv_rhs => rw [ddaRun]
      split
      next hc => exact ih k _ (by rw [ddaStep_depth]; omega) (by rw [ddaStep_depth]; omega)
      next hc => rfl


lemma ddaRun_east (m : Map) (s : RaySetup α) (dxv : α)
    (hdx : s.deltaX = EF.fin dxv) (hsx : s.stepX = 1) (maxDepth : ℕ) :
    ∀ (k : ℕ) (c0 r0 : ℤ) (a : α) (h0 d0 fuel : ℕ),
      (∀ j : ℕ, 1 ≤ j → j < k + 1 → m.get_tile (c0 + j) r0 ≠ Map.WALL) →
      m.get_tile (c0 + (k + 1)) r0 = Map.WALL →
      k + 1 ≤ fuel → d0 + (k + 1) ≤ maxDepth →
      ddaRun m s maxDepth fuel ⟨EF.fin a, EF.inf, c0, r0, h0, false, d0⟩ =
        ⟨EF.fin (a + (k + 1 : ℕ) * dxv), EF.inf, c0 + (k + 1 : ℕ), r0, 0, true,
         d0 + (k + 1)⟩ := by
  intro k
  induction k with
  | zero =>
    intro c0 r0 a h0 d0 fuel hempty hwall hfuel hd
    cases fuel with
    | zero => omega
    | succ f =>
      rw [ddaRun, if_pos ⟨rfl, show d0 < maxDepth by omega⟩]
      have hwall1 : m.get_tile (c0 + 1) r0 = Map.WALL := by
        have := hwall
        push_cast at this
        exact this
      have hstep : ddaStep m s ⟨EF.fin a, EF.inf, c0, r0, h0, false, d0⟩ =
          ⟨EF.fin (a + dxv), EF.inf, c0 + 1, r0, 0, true, d0 + 1⟩ := by
        unfold ddaStep
        simp [EF.blt, hdx, hsx, EF.add, hwall1]
      rw [hstep, ddaRun_of_wallHit _ _ _ _ _ rfl]
      simp only [DDAState.mk.injEq, EF.fin.injEq]
      all_goals and_intros
      all_goals first
      | trivial
      | (push_cast; ring)
      | omega
  | succ n ih =>
    intro c0 r0 a h0 d0 fuel hempty hwall hfuel hd
    cases fuel with
    | zero => omega
    | succ f =>
      rw [ddaRun, if_pos ⟨rfl, show d0 < maxDepth by omega⟩]
      have hempty1 : m.get_tile (c0 + 1) r0 ≠ Map.WALL := by
        have := hempty 1 le_rfl (by omega)
        push_cast at this
        exact this
      have hstep : ddaStep m s ⟨EF.fin a, EF.inf, c0, r0, h0, false, d0⟩ =
          ⟨EF.fin (a + dxv), EF.inf, c0 + 1, r0, 0, false, d0 + 1⟩ := by
        unfold ddaStep
        simp [EF.blt, hdx, hsx, EF.add, hempty1]
      rw [hstep]
      have hrec := ih (c0 + 1) r0 (a + dxv) 0 (d0 + 1) f
        (fun j hj1 hj2 => by
          have h := hempty (j + 1) (by omega) (by omega)
          push_cast at h
          have harg : c0 + 1 + (j : ℤ) = c0 + ((j : ℤ) + 1) := by ring
          rw [harg]
          exact h)
        (by
          have h := hwall
          push_cast at h
          have harg : c0 + 1 + ((n : ℤ) + 1) = c0 + ((n : ℤ) + 1 + 1) := by ring
          rw [harg]
          exact h)
        (by omega) (by omega)
      rw [hrec]
      simp only [DDAState.mk.injEq, EF.fin.injEq]
      all_goals and_intros
      all_goals first
      | trivial
      | (push_cast; ring)
      | omega

lemma ddaRun_south (m : Map) (s : RaySetup α) (dyv : α)
    (hdy : s.deltaY = EF.fin dyv) (hsy : s.stepY = 1) (maxDepth : ℕ) :
    ∀ (k : ℕ) (c0 r0 : ℤ) (a : α) (h0 d0 fuel : ℕ),
      (∀ j : ℕ, 1 ≤ j → j < k + 1 → m.get_tile c0 (r0 + j) ≠ Map.WALL) →
      m.get_tile c0 (r0 + (k + 1)) = Map.WALL →
      k + 1 ≤ fuel → d0 + (k + 1) ≤ maxDepth →
      ddaRun m s maxDepth fuel ⟨EF.inf, EF.fin a, c0, r0, h0, false, d0⟩ =
        ⟨EF.inf, EF.fin (a + (k + 1 : ℕ) * dyv), c0, r0 + (k + 1 : ℕ), 1, true,
         d0 + (k + 1)⟩ := by
  intro k
  induction k with
  | zero =>
    intro c0 r0 a h0 d0 fuel hempty hwall hfuel hd
    cases fuel with
    | zero => omega
    | succ f =>
      rw [ddaRun, if_pos ⟨rfl, show d0 < maxDepth by omega⟩]
      have hwall1 : m.get_tile c0 (r0 + 1) = Map.WALL := by
        have := hwall
        push_cast at this
        exact this
      have hstep : ddaStep m s ⟨EF.inf, EF.fin a, c0, r0, h0, false, d0⟩ =
          ⟨EF.inf, EF.fin (a + dyv), c0, r0 + 1, 1, true, d0 + 1⟩ := by
        unfold ddaStep
        simp [EF.blt, hdy, hsy, EF.add, hwall1]
      rw [hstep, ddaRun_of_wallHit _ _ _ _ _ rfl]
      simp only [DDAState.mk.injEq, EF.fin.injEq]
      all_goals and_intros
      all_goals first
      | trivial
      | (push_cast; ring)
      | omega
  | succ n ih =>
    intro c0 r0 a h0 d0 fuel hempty hwall hfuel hd
    cases fuel with
    | zero => omega
    | succ f =>
      rw [ddaRun, if_pos ⟨rfl, show d0 < maxDepth by omega⟩]
      have hempty1 : m.get_tile c0 (r0 + 1) ≠ Map.WALL := by
        have := hempty 1 le_rfl (by omega)
        push_cast at this
        exact this
      have hstep : ddaStep m s ⟨EF.inf, EF.fin a, c0, r0, h0, false, d0⟩ =
          ⟨EF.inf, EF.fin (a + dyv), c0, r0 + 1, 1, false, d0 + 1⟩ := by
        unfold ddaStep
        simp [EF.blt, hdy, hsy, EF.add, hempty1]
      rw [hstep]
      have hrec := ih c0 (r0 + 1) (a + dyv) 1 (d0 + 1) f
        (fun j hj1 hj2 => by
          have h := hempty (j + 1) (by omega) (by omega)
          push_cast at h
          have harg : r0 + 1 + (j : ℤ) = r0 + ((j : ℤ) + 1) := by ring
          rw [harg]
          exact h)
        (by
          have h := hwall
          push_cast at h
          have harg : r0 + 1 + ((n : ℤ) + 1) = r0 + ((n : ℤ) + 1 + 1) := by ring
          rw [harg]
          exact h)
        (by omega) (by omega)
      rw [hrec]
      simp only [DDAState.mk.injEq, EF.fin.injEq]
      all_goals and_intros
      all_goals first
      | trivial
      | (push_cast; ring)
      | omega



/-! ### Evaluation of the setup for axis-aligned rays -/

variable [FloorRing α]

lemma TILE_cast : ((TILE_SIZE : ℕ) : α) = 64 := by
  norm_num [TILE_SIZE]

lemma floor_center (c0 : ℤ) : ⌊(64 * (c0 : α) + 32) / (TILE_SIZE : α)⌋ = c0 := by
  rw [TILE_cast]
  have h : (64 * (c0 : α) + 32) / 64 = (c0 : α) + 1 / 2 := by ring
  rw [h, Int.floor_int_add]
  have h2 : ⌊(1 / 2 : α)⌋ = 0 := by
    rw [Int.floor_eq_zero_iff]
    constructor <;> norm_num
  omega

lemma raySetup_east_center (c0 r0 : ℤ) :
    raySetup (1 : α) 0 (64 * (c0 : α) + 32) (64 * (r0 : α) + 32) =
      ⟨EF.fin 1, EF.inf, 1, 1, ⟨EF.fin (1 / 2), EF.inf, c0, r0, 0, false, 0⟩⟩ := by
  unfold raySetup
  rw [floor_center, floor_center]
  norm_num [recipAbs, TILE_cast, EF.smul]
  ring

lemma raySetup_south_center (c0 r0 : ℤ) :
    raySetup (0 : α) 1 (64 * (c0 : α) + 32) (64 * (r0 : α) + 32) =
      ⟨EF.inf, EF.fin 1, 1, 1, ⟨EF.inf, EF.fin (1 / 2), c0, r0, 0, false, 0⟩⟩ := by
  unfold raySetup
  rw [floor_center, floor_center]
  norm_num [recipAbs, TILE_cast, EF.smul]
  ring

/-- Ray cast due east from the center of cell `(c0, r0)`, with the first
wall of the traversed row `k` tiles to the east: the raw perpendicular
distance is `(k - 1/2) * 64` and the hit is on an east/west face. -/
lemma rayPerpRaw_east_center (m : Map) (c0 r0 : ℤ) (k maxD : ℕ) (hk : 1 ≤ k)
    (hmd : k ≤ maxD)
    (hempty : ∀ j : ℕ, 1 ≤ j → j < k → m.get_tile (c0 + j) r0 ≠ Map.WALL)
    (hwall : m.get_tile (c0 + k) r0 = Map.WALL) :
    rayPerpRaw m maxD (1 : α) 0 (64 * (c0 : α) + 32) (64 * (r0 : α) + 32) =
      ((k : α) - 1 / 2) * 64 := by
  obtain ⟨k0, rfl⟩ : ∃ k0, k = k0 + 1 := ⟨k - 1, by omega⟩
  unfold rayPerpRaw rayHitState
  rw [raySetup_east_center]
  have hrun := ddaRun_east m
    (⟨EF.fin 1, EF.inf, 1, 1, ⟨EF.fin (1 / 2), EF.inf, c0, r0, 0, false, 0⟩⟩ :
      RaySetup α) 1 rfl rfl maxD k0 c0 r0 (1 / 2) 0 0 maxD
    (fun j hj1 hj2 => hempty j hj1 (by omega))
    (by
      have h := hwall
      push_cast at h ⊢
      convert h using 3
      all_goals omega)
    (by omega) (by omega)
  simp only [] at hrun
  rw [hrun]
  unfold perpOf
  simp only [EF.val, if_pos rfl]
  rw [TILE_cast]
  push_cast
  ring


/-- Ray cast due south from the center of cell `(c0, r0)`, with the first
wall of the traversed column `k` tiles to the south: the final DDA state
hit a north/south face after exactly `k` steps. -/
lemma rayHitState_south_center (m : Map) (c0 r0 : ℤ) (k maxD : ℕ) (hk : 1 ≤ k)
    (hmd : k ≤ maxD)
    (hempty : ∀ j : ℕ, 1 ≤ j → j < k → m.get_tile c0 (r0 + j) ≠ Map.WALL)
    (hwall : m.get_tile c0 (r0 + k) = Map.WALL) :
    rayHitState m maxD (0 : α) 1 (64 * (c0 : α) + 32) (64 * (r0 : α) + 32) =
      ⟨EF.inf, EF.fin ((k : α) + 1 / 2), c0, r0 + (k : ℤ), 1, true, k⟩ := by
  obtain ⟨k0, rfl⟩ : ∃ k0, k = k0 + 1 := ⟨k - 1, by omega⟩
  unfold rayHitState
  rw [raySetup_south_center]
  have hrun := ddaRun_south m
    (⟨EF.inf, EF.fin 1, 1, 1, ⟨EF.inf, EF.fin (1 / 2), c0, r0, 0, false, 0⟩⟩ :
      RaySetup α) 1 rfl rfl maxD k0 c0 r0 (1 / 2) 0 0 maxD
    (fun j hj1 hj2 => hempty j hj1 (by omega))
    (by
      have h := hwall
      push_cast at h ⊢
      convert h using 3
      all_goals omega)
    (by omega) (by omega)
  simp only [] at hrun
  rw [hrun]
  simp only [DDAState.mk.injEq, EF.fin.injEq]
  all_goals and_intros
  all_goals first
  | trivial
  | (push_cast; ring)

/-- Corrected (fisheye-on) distance of an eastward axis-aligned ray cast
from a cell center toward a wall `k` tiles away: `(k - 1/2) * 64`. -/
lemma castRayDistance_east_center (m : Map) (c0 r0 : ℤ) (k maxD : ℕ)
    (hk : 1 ≤ k) (hmd : k < maxD)
    (hempty : ∀ j : ℕ, 1 ≤ j → j < k → m.get_tile (c0 + j) r0 = Map.EMPTY)
    (hwall : m.get_tile (c0 + k) r0 = Map.WALL) :
    castRayDistance true maxD m 0 0 (64 * (c0 : ℝ) + 32) (64 * (r0 : ℝ) + 32) =
      ((k : ℝ) - 1 / 2) * (TILE_SIZE : ℝ) := by
  unfold castRayDistance
  rw [if_pos rfl, Real.cos_zero, Real.sin_zero]
  unfold rayPerp
  rw [rayPerpRaw_east_center m c0 r0 k maxD hk (le_of_lt hmd)
    (fun j h1 h2 => by rw [hempty j h1 h2]; norm_num [Map.EMPTY, Map.WALL]) hwall]
  have hcast : ((k : ℝ) - 1 / 2) * (TILE_SIZE : ℝ) = ((k : ℝ) - 1 / 2) * 64 := by
    rw [TILE_cast]
  rw [hcast]
  have hk1 : (1 : ℝ) ≤ (k : ℝ) := by exact_mod_cast hk
  rw [max_eq_left (by nlinarith)]


/-! ### Claim C1 -/

/-- C1 (amended): for a map whose traversed row is `EMPTY` until the first
`WALL` exactly `k` tiles to the east, a viewer at the center of cell
`(c0, r0)` looking east (axis-aligned ray, fisheye correction on), with
`maxDepth > k`, receives from `castColumn` a corrected perpendicular
distance of `(k - 1/2) * tileSize` (not `k * tileSize` as originally
claimed), independent of `maxDepth`. -/
theorem claim_C1 (m : Map) (c0 r0 : ℤ) (k maxD : ℕ)
    (hk : 1 ≤ k) (hmd : k < maxD)
    (hempty : ∀ j : ℕ, 1 ≤ j → j < k → m.get_tile (c0 + j) r0 = Map.EMPTY)
    (hwall : m.get_tile (c0 + k) r0 = Map.WALL) :
    castRayDistance true maxD m 0 0 (64 * (c0 : ℝ) + 32) (64 * (r0 : ℝ) + 32) =
      ((k : ℝ) - 1 / 2) * (TILE_SIZE : ℝ) :=
  castRayDistance_east_center m c0 r0 k maxD hk hmd hempty hwall

/-- Witness for C1: in the 4x4 ring map, from the center of cell `(1,1)`
looking east, the wall is `k = 2` tiles away and the corrected distance is
`(2 - 1/2) * tileSize`. -/
theorem claim_C1_witness :
    castRayDistance true 20 ringMap4 0 0 (64 * ((1 : ℤ) : ℝ) + 32)
        (64 * ((1 : ℤ) : ℝ) + 32) =
      (((2 : ℕ) : ℝ) - 1 / 2) * (TILE_SIZE : ℝ) :=
  claim_C1 ringMap4 1 1 2 20 (by norm_num) (by norm_num)
    (fun j h1 h2 => by interval_cases j; decide)
    (by decide)

/-- Counterexample to C1 as stated: in the 4x4 ring map (outer ring `WALL`,
interior `EMPTY`), the viewer at the center of cell `(1,1)` looking east
faces a wall `k = 2` tiles away, yet the corrected distance is `96`, not
`k * tileSize = 128`. -/
theorem claim_C1_counterexample :
    ringMap4.get_tile (1 + (2 : ℕ)) 1 = Map.WALL ∧
    ringMap4.get_tile (1 + (1 : ℕ)) 1 = Map.EMPTY ∧
    castRayDistance true 20 ringMap4 0 0 (64 * ((1 : ℤ) : ℝ) + 32)
        (64 * ((1 : ℤ) : ℝ) + 32) = 96 ∧
    (96 : ℝ) ≠ (2 : ℕ) * (TILE_SIZE : ℝ) := by
  refine ⟨by decide, by decide, ?_, by norm_num [TILE_cast]⟩
  rw [castRayDistance_east_center ringMap4 1 1 2 20 (by norm_num) (by norm_num)
    (fun j h1 h2 => by interval_cases j; decide) (by decide)]
  norm_num [TILE_cast]


/-! ### Claim C2 -/

/-- C2: on the same inputs, the fisheye-corrected distance and the
uncorrected Euclidean distance of `castColumn` satisfy: the uncorrected
one is always at least the corrected one for rays within half the field
of view of the viewer angle, and the two are equal for the ray at the
exact center of the field of view (`rayAngle = viewerAngle`). -/
theorem claim_C2 (maxD : ℕ) (m : Map) (ray_angle player_angle px py : ℝ)
    (h : |ray_angle - player_angle| ≤ FOV / 2) :
    castRayDistance true maxD m ray_angle player_angle px py ≤
      castRayDistance false maxD m ray_angle player_angle px py ∧
    (ray_angle = player_angle →
      castRayDistance false maxD m ray_angle player_angle px py =
        castRayDistance true maxD m ray_angle player_angle px py) := by
  have hpi := Real.pi_pos
  have habs := abs_le.mp h
  have hcospos : 0 < Real.cos (ray_angle - player_angle) := by
    apply Real.cos_pos_of_mem_Ioo
    constructor
    · have : -(Real.pi / 2) < -(FOV / 2) := by unfold FOV; linarith
      linarith [habs.1]
    · have : FOV / 2 < Real.pi / 2 := by unfold FOV; linarith
      linarith [habs.2]
  have hcosle : Real.cos (ray_angle - player_angle) ≤ 1 := Real.cos_le_one _
  have hperp : 0 < rayPerp m maxD (Real.cos ray_angle) (Real.sin ray_angle) px py := by
    unfold rayPerp
    have : (0 : ℝ) < 1 / 10000 := by norm_num
    exact lt_of_lt_of_le this (le_max_right _ _)
  constructor
  · unfold castRayDistance
    rw [if_pos rfl, if_neg (by simp)]
    rw [le_div_iff₀ hcospos]
    exact mul_le_of_le_one_right (le_of_lt hperp) hcosle
  · intro heq
    unfold castRayDistance
    rw [if_pos rfl, if_neg (by simp), heq, sub_self, Real.cos_zero, div_one]

/-- Witness for C2 at the center ray `rayAngle = viewerAngle = 0` from
`(96, 96)` in the built-in map. -/
theorem claim_C2_witness :
    castRayDistance true 20 builtinMap 0 0 96 96 ≤
      castRayDistance false 20 builtinMap 0 0 96 96 ∧
    ((0 : ℝ) = 0 →
      castRayDistance false 20 builtinMap 0 0 96 96 =
        castRayDistance true 20 builtinMap 0 0 96 96) :=
  claim_C2 20 builtinMap 0 0 96 96
    (by simp [FOV]; positivity)


/-! ### Claim C3 -/

/-- C3: for every ray angle, viewer position and map, the DDA loop of
`castColumn` terminates (it is total by construction), performs at most
`maxDepth` grid steps, is insensitive to any extra fuel beyond `maxDepth`
(so `maxDepth` iterations always suffice), exits only because a `WALL`
cell was entered or the step count reached `maxDepth`, and each iteration
advances exactly one cell along exactly one axis (the per-axis steps are
`±1`). -/
theorem claim_C3 (maxD : ℕ) (θ px py : ℝ) (m : Map) :
    (rayHitState m maxD (Real.cos θ) (Real.sin θ) px py).depth ≤ maxD ∧
    ((rayHitState m maxD (Real.cos θ) (Real.sin θ) px py).wallHit = true ∨
      (rayHitState m maxD (Real.cos θ) (Real.sin θ) px py).depth = maxD) ∧
    (∀ extra : ℕ,
      ddaRun m (raySetup (Real.cos θ) (Real.sin θ) px py) maxD (maxD + extra)
          (raySetup (Real.cos θ) (Real.sin θ) px py).st =
        rayHitState m maxD (Real.cos θ) (Real.sin θ) px py) ∧
    ((raySetup (Real.cos θ) (Real.sin θ) px py).stepX = 1 ∨
      (raySetup (Real.cos θ) (Real.sin θ) px py).stepX = -1) ∧
    ((raySetup (Real.cos θ) (Real.sin θ) px py).stepY = 1 ∨
      (raySetup (Real.cos θ) (Real.sin θ) px py).stepY = -1) ∧
    (∀ st : DDAState ℝ,
      (ddaStep m (raySetup (Real.cos θ) (Real.sin θ) px py) st).depth = st.depth + 1 ∧
      (((ddaStep m (raySetup (Real.cos θ) (Real.sin θ) px py) st).col =
            st.col + (raySetup (Real.cos θ) (Real.sin θ) px py).stepX ∧
        (ddaStep m (raySetup (Real.cos θ) (Real.sin θ) px py) st).row = st.row) ∨
       ((ddaStep m (raySetup (Real.cos θ) (Real.sin θ) px py) st).col = st.col ∧
        (ddaStep m (raySetup (Real.cos θ) (Real.sin θ) px py) st).row =
            st.row + (raySetup (Real.cos θ) (Real.sin θ) px py).stepY))) := by
  refine ⟨?_, ?_, ?_, ?_, ?_, ?_⟩
  · exact ddaRun_depth_le m _ maxD maxD _ (Nat.zero_le maxD)
  · exact ddaRun_exit m _ maxD maxD _ (Nat.zero_le maxD) (by omega)
  · intro extra
    exact ddaRun_fuel_irrel m _ maxD (maxD + extra) maxD _ (by omega) (by omega)
  · unfold raySetup
    by_cases h : Real.cos θ < 0 <;> simp [h]
  · unfold raySetup
    by_cases h : Real.sin θ < 0 <;> simp [h]
  · intro st
    by_cases h : EF.blt st.sideX st.sideY
    · simp [ddaStep, h]
    · simp [ddaStep, h]


/-! ### Claims C5 and C6 -/

/-- C5: on a rectangular grid, `get_tile` returns exactly the stored tile
for every in-bounds integer pair and `WALL` for every out-of-bounds
pair. -/
theorem claim_C5 (m : Map) (hrect : ∀ r ∈ m.grid, r.length = m.num_cols)
    (col row : ℤ) :
    ((0 ≤ row ∧ row < (m.num_rows : ℤ) ∧ 0 ≤ col ∧ col < (m.num_cols : ℤ)) →
      (m.grid[row.toNat]?.bind fun r => r[col.toNat]?) =
        some (m.get_tile col row)) ∧
    (¬ (0 ≤ row ∧ row < (m.num_rows : ℤ) ∧ 0 ≤ col ∧ col < (m.num_cols : ℤ)) →
      m.get_tile col row = Map.WALL) := by
  constructor
  · rintro ⟨h1, h2, h3, h4⟩
    have hrow : row.toNat < m.grid.length := by
      unfold Map.num_rows at h2
      omega
    have hrl : m.grid[row.toNat].length = m.num_cols :=
      hrect _ (List.getElem_mem hrow)
    have hcol : col.toNat < m.grid[row.toNat].length := by
      rw [hrl]
      omega
    rw [List.getElem?_eq_getElem hrow]
    simp only [Option.some_bind]
    rw [List.getElem?_eq_getElem hcol]
    unfold Map.get_tile
    rw [if_pos ⟨h1, h2, h3, h4⟩]
    rw [List.getD_eq_getElem?_getD, List.getD_eq_getElem?_getD,
        List.getElem?_eq_getElem hrow]
    simp only [Option.getD_some]
    rw [List.getElem?_eq_getElem hcol]
    simp only [Option.getD_some]
  · intro hout
    unfold Map.get_tile
    rw [if_neg hout]

/-- Witness for C5 at the built-in map: the in-bounds pair `(1, 1)` reads
the stored tile and the pair `(-1, 0)` is out of bounds. -/
theorem claim_C5_witness :
    (((0 : ℤ) ≤ 1 ∧ (1 : ℤ) < (builtinMap.num_rows : ℤ) ∧ (0 : ℤ) ≤ 1 ∧
        (1 : ℤ) < (builtinMap.num_cols : ℤ)) →
      (builtinMap.grid[(1 : ℤ).toNat]?.bind fun r => r[(1 : ℤ).toNat]?) =
        some (builtinMap.get_tile 1 1)) ∧
    (¬ ((0 : ℤ) ≤ 1 ∧ (1 : ℤ) < (builtinMap.num_rows : ℤ) ∧ (0 : ℤ) ≤ 1 ∧
        (1 : ℤ) < (builtinMap.num_cols : ℤ)) →
      builtinMap.get_tile 1 1 = Map.WALL) :=
  claim_C5 builtinMap (by decide) 1 1

/-- C6: `attemptMove` commits the X displacement exactly when both X
probes (at `y - MARGIN` and `y + MARGIN`) land outside walls, commits the
Y displacement exactly when both Y probes (at the already-updated
x `- MARGIN` and `+ MARGIN`) land outside walls, and a committed axis
changes the coordinate by exactly the attempted delta while a blocked
axis leaves it unchanged. -/
theorem claim_C6 (m : Map) (p : Player α) (dx dy : α) :
    (p.try_move dx dy m).x =
      (if m.is_wall (p.x + dx) (p.y - (MARGIN : α)) = false ∧
          m.is_wall (p.x + dx) (p.y + (MARGIN : α)) = false
       then p.x + dx else p.x) ∧
    (p.try_move dx dy m).y =
      (if m.is_wall ((p.try_move dx dy m).x - (MARGIN : α)) (p.y + dy) = false ∧
          m.is_wall ((p.try_move dx dy m).x + (MARGIN : α)) (p.y + dy) = false
       then p.y + dy else p.y) := by
  constructor
  · simp only [Player.try_move, Bool.and_eq_true, Bool.not_eq_true']
  · simp only [Player.try_move, Bool.and_eq_true, Bool.not_eq_true']


/-! ### Claim C8 -/

lemma pyInt_mono {a b : α} (h : a ≤ b) : pyInt a ≤ pyInt b := by
  unfold pyInt
  by_cases ha : a < 0
  · by_cases hb : b < 0
    · rw [if_pos ha, if_pos hb]
      exact Int.ceil_le_ceil h
    · rw [if_pos ha, if_neg hb]
      have h1 : ⌈a⌉ ≤ 0 := Int.ceil_le.mpr (by exact_mod_cast le_of_lt ha)
      have h2 : (0 : ℤ) ≤ ⌊b⌋ := Int.floor_nonneg.mpr (not_lt.mp hb)
      omega
  · rw [if_neg ha, if_neg (by push_neg at ha ⊢; linarith)]
    exact Int.floor_le_floor h

/-- C8 (amended): holding the viewer pose fixed, for corrected distances
`d1 < d2` fed into the height and shade derivations of `castColumn`, the
`wallSliceHeight` derived from `d2` is at most (not necessarily strictly
smaller than) the one derived from `d1`, and the shade derived from `d2`
is not larger than the one derived from `d1`. -/
theorem claim_C8 (screen_height : ℕ) (d1 d2 : ℝ) (h0 : 0 < d1) (h12 : d1 < d2) :
    wallHeightOf screen_height d2 ≤ wallHeightOf screen_height d1 ∧
    shadeOf d2 ≤ shadeOf d1 := by
  have h02 : 0 < d2 := lt_trans h0 h12
  constructor
  · unfold wallHeightOf
    apply pyInt_mono
    rw [TILE_cast]
    gcongr
  · unfold shadeOf
    have hmono : pyInt (d1 / (TILE_SIZE : ℝ) * 18) ≤ pyInt (d2 / (TILE_SIZE : ℝ) * 18) := by
      apply pyInt_mono
      rw [TILE_cast]
      have : d1 / 64 ≤ d2 / 64 := by linarith
      nlinarith
    omega

/-- Witness for C8 at `d1 = 1`, `d2 = 2`, screen height 720. -/
theorem claim_C8_witness :
    wallHeightOf 720 (2 : ℝ) ≤ wallHeightOf 720 (1 : ℝ) ∧
    shadeOf (2 : ℝ) ≤ shadeOf (1 : ℝ) :=
  claim_C8 720 1 2 (by norm_num) (by norm_num)

/-- Counterexample to C8 as stated: the derived `wallSliceHeight` is the
floor of `tileSize / distance * screenHeight`, so distinct distances can
give equal heights: at the game screen height 720, distances 2000 and
2001 both yield height 23 — not a strict decrease. -/
theorem claim_C8_counterexample :
    (0 : ℝ) < 2000 ∧ (2000 : ℝ) < 2001 ∧
    wallHeightOf 720 (2000 : ℝ) = 23 ∧ wallHeightOf 720 (2001 : ℝ) = 23 ∧
    ¬ wallHeightOf 720 (2001 : ℝ) < wallHeightOf 720 (2000 : ℝ) := by
  have h1 : wallHeightOf 720 (2000 : ℝ) = 23 := by
    unfold wallHeightOf pyInt
    rw [TILE_cast, if_neg (by norm_num)]
    rw [Int.floor_eq_iff]
    norm_num
  have h2 : wallHeightOf 720 (2001 : ℝ) = 23 := by
    unfold wallHeightOf pyInt
    rw [TILE_cast, if_neg (by norm_num)]
    rw [Int.floor_eq_iff]
    norm_num
  exact ⟨by norm_num, by norm_num, h1, h2, by omega⟩


/-! ### Claims C9 and C10 -/

lemma MARGIN_cast : ((MARGIN : ℕ) : α) = 10 := by
  norm_num [MARGIN]

lemma is_wall_eval (m : Map) (x y : α) (cx cy : ℤ)
    (hx : ⌊x / (TILE_SIZE : α)⌋ = cx) (hy : ⌊y / (TILE_SIZE : α)⌋ = cy) :
    m.is_wall x y = (m.get_tile cx cy == Map.WALL) := by
  unfold Map.is_wall
  rw [hx, hy]

/-- The tile row of `y` is the tile row of one of the two probe points
`y - MARGIN`, `y + MARGIN` (because `2 * MARGIN < TILE_SIZE`). -/
lemma floor_straddle (t : α) :
    ⌊t / (TILE_SIZE : α)⌋ = ⌊(t - (MARGIN : α)) / (TILE_SIZE : α)⌋ ∨
    ⌊t / (TILE_SIZE : α)⌋ = ⌊(t + (MARGIN : α)) / (TILE_SIZE : α)⌋ := by
  rw [TILE_cast, MARGIN_cast]
  have h1 : ⌊(t - 10) / 64⌋ ≤ ⌊t / (64 : α)⌋ :=
    Int.floor_le_floor (by gcongr <;> norm_num)
  have h2 : ⌊t / (64 : α)⌋ ≤ ⌊(t + 10) / 64⌋ :=
    Int.floor_le_floor (by gcongr <;> norm_num)
  have h3 : ⌊(t + 10) / (64 : α)⌋ ≤ ⌊(t - 10) / 64⌋ + 1 := by
    have hfl := Int.lt_floor_add_one ((t - 10) / (64 : α))
    have hlt : (t + 10) / (64 : α) < ((⌊(t - 10) / (64 : α)⌋ + 2 : ℤ) : α) := by
      have hr : (t + 10) / (64 : α) = (t - 10) / 64 + 20 / 64 := by ring
      push_cast
      rw [hr]
      linarith
    have := Int.floor_lt.mpr hlt
    omega
  omega

lemma is_wall_probes_vert (m : Map) (x y : α)
    (h1 : m.is_wall x (y - (MARGIN : α)) = false)
    (h2 : m.is_wall x (y + (MARGIN : α)) = false) :
    m.is_wall x y = false := by
  unfold Map.is_wall at h1 h2 ⊢
  rcases floor_straddle (α := α) y with h | h
  · rw [h]; exact h1
  · rw [h]; exact h2

lemma is_wall_probes_horiz (m : Map) (x y : α)
    (h1 : m.is_wall (x - (MARGIN : α)) y = false)
    (h2 : m.is_wall (x + (MARGIN : α)) y = false) :
    m.is_wall x y = false := by
  unfold Map.is_wall at h1 h2 ⊢
  rcases floor_straddle (α := α) x with h | h
  · rw [h]; exact h1
  · rw [h]; exact h2

/-- Outcome equations of `_try_move` (also the content of claim C6). -/
lemma try_move_spec (m : Map) (p : Player α) (dx dy : α) :
    (p.try_move dx dy m).x =
      (if m.is_wall (p.x + dx) (p.y - (MARGIN : α)) = false ∧
          m.is_wall (p.x + dx) (p.y + (MARGIN : α)) = false
       then p.x + dx else p.x) ∧
    (p.try_move dx dy m).y =
      (if m.is_wall ((p.try_move dx dy m).x - (MARGIN : α)) (p.y + dy) = false ∧
          m.is_wall ((p.try_move dx dy m).x + (MARGIN : α)) (p.y + dy) = false
       then p.y + dy else p.y) := by
  constructor
  · simp only [Player.try_move, Bool.and_eq_true, Bool.not_eq_true']
  · simp only [Player.try_move, Bool.and_eq_true, Bool.not_eq_true']

/-- C9: `_try_move` preserves the invariant that the player's center is
not inside a wall tile: each committed axis move was vouched for by two
probes that straddle the center's tile (since `MARGIN < TILE_SIZE`). -/
theorem claim_C9 (m : Map) (p : Player α) (dx dy : α)
    (h : m.is_wall p.x p.y = false) :
    m.is_wall (p.try_move dx dy m).x (p.try_move dx dy m).y = false := by
  obtain ⟨hx, hy⟩ := try_move_spec m p dx dy
  by_cases h2 : m.is_wall ((p.try_move dx dy m).x - (MARGIN : α)) (p.y + dy) = false ∧
      m.is_wall ((p.try_move dx dy m).x + (MARGIN : α)) (p.y + dy) = false
  · rw [hy, if_pos h2]
    exact is_wall_probes_horiz m _ _ h2.1 h2.2
  · rw [hy, if_neg h2]
    by_cases h1 : m.is_wall (p.x + dx) (p.y - (MARGIN : α)) = false ∧
        m.is_wall (p.x + dx) (p.y + (MARGIN : α)) = false
    · rw [hx, if_pos h1]
      exact is_wall_probes_vert m _ _ h1.1 h1.2
    · rw [hx, if_neg h1]
      exact h


/-- Witness for C9: at `(96, 96)` in the built-in map (an open tile), any
attempted move, e.g. `(1, 0)`, leaves the player outside walls. -/
theorem claim_C9_witness :
    builtinMap.is_wall ((⟨96, 96, 0⟩ : Player ℚ).try_move 1 0 builtinMap).x
      ((⟨96, 96, 0⟩ : Player ℚ).try_move 1 0 builtinMap).y = false :=
  claim_C9 builtinMap ⟨96, 96, 0⟩ 1 0
    (by
      rw [is_wall_eval builtinMap (96 : ℚ) 96 1 1
        (by rw [TILE_cast]; norm_num [Int.floor_eq_iff])
        (by rw [TILE_cast]; norm_num [Int.floor_eq_iff])]
      decide)

/-- C10: collision testing in `_try_move` probes only the destination, so
a displacement longer than a tile tunnels through a one-tile-thick wall:
from `(96, 160)` (open) with `dx = 128 > TILE_SIZE` the move commits to
`x = 224` although the straight-line path point `(160, 160)` lies in a
`WALL` tile. -/
theorem claim_C10 :
    ((⟨96, 160, 0⟩ : Player ℚ).try_move 128 0 builtinMap).x = 224 ∧
    ((⟨96, 160, 0⟩ : Player ℚ).try_move 128 0 builtinMap).y = 160 ∧
    builtinMap.is_wall (96 : ℚ) 160 = false ∧
    builtinMap.is_wall (160 : ℚ) 160 = true ∧
    (96 : ℚ) < 160 ∧ (160 : ℚ) < 224 ∧ (TILE_SIZE : ℚ) < 128 := by
  have e1 : builtinMap.is_wall ((96 : ℚ) + 128) (160 - (MARGIN : ℚ)) = false := by
    rw [is_wall_eval builtinMap _ _ 3 2
      (by rw [TILE_cast]; norm_num [Int.floor_eq_iff])
      (by rw [TILE_cast, MARGIN_cast]; norm_num [Int.floor_eq_iff])]
    decide
  have e2 : builtinMap.is_wall ((96 : ℚ) + 128) (160 + (MARGIN : ℚ)) = false := by
    rw [is_wall_eval builtinMap _ _ 3 2
      (by rw [TILE_cast]; norm_num [Int.floor_eq_iff])
      (by rw [TILE_cast, MARGIN_cast]; norm_num [Int.floor_eq_iff])]
    decide
  obtain ⟨hx, hy⟩ := try_move_spec builtinMap (⟨96, 160, 0⟩ : Player ℚ) 128 0
  have hxv : ((⟨96, 160, 0⟩ : Player ℚ).try_move 128 0 builtinMap).x = 224 := by
    rw [hx, if_pos ⟨e1, e2⟩]
    norm_num
  have e3 : builtinMap.is_wall (((⟨96, 160, 0⟩ : Player ℚ).try_move 128 0
      builtinMap).x - (MARGIN : ℚ)) ((160 : ℚ) + 0) = false := by
    rw [hxv, is_wall_eval builtinMap _ _ 3 2
      (by rw [TILE_cast, MARGIN_cast]; norm_num [Int.floor_eq_iff])
      (by rw [TILE_cast]; norm_num [Int.floor_eq_iff])]
    decide
  have e4 : builtinMap.is_wall (((⟨96, 160, 0⟩ : Player ℚ).try_move 128 0
      builtinMap).x + (MARGIN : ℚ)) ((160 : ℚ) + 0) = false := by
    rw [hxv, is_wall_eval builtinMap _ _ 3 2
      (by rw [TILE_cast, MARGIN_cast]; norm_num [Int.floor_eq_iff])
      (by rw [TILE_cast]; norm_num [Int.floor_eq_iff])]
    decide
  have hyv : ((⟨96, 160, 0⟩ : Player ℚ).try_move 128 0 builtinMap).y = 160 := by
    rw [hy, if_pos ⟨e3, e4⟩]
    norm_num
  refine ⟨hxv, hyv, ?_, ?_, by norm_num, by norm_num, by rw [TILE_cast]; norm_num⟩
  · rw [is_wall_eval builtinMap _ _ 1 2
      (by rw [TILE_cast]; norm_num [Int.floor_eq_iff])
      (by rw [TILE_cast]; norm_num [Int.floor_eq_iff])]
    decide
  · rw [is_wall_eval builtinMap _ _ 2 2
      (by rw [TILE_cast]; norm_num [Int.floor_eq_iff])
      (by rw [TILE_cast]; norm_num [Int.floor_eq_iff])]
    decide


/-! ### Distance bound for arbitrary rays (used for claim C4)

On the axis whose step distance is finite and at most `δ`, the side
accumulator stays below `δ * (depth + 1)`; since every DDA step advances
the axis with the smaller accumulator, the extracted perpendicular
distance is at most `δ * depth` tiles. -/

lemma ddaStep_x (m : Map) (s : RaySetup α) (st : DDAState α)
    (hc : EF.blt st.sideX st.sideY = true) :
    (ddaStep m s st).sideX = st.sideX.add s.deltaX ∧
    (ddaStep m s st).sideY = st.sideY ∧
    (ddaStep m s st).hitSide = 0 ∧
    (ddaStep m s st).depth = st.depth + 1 := by
  unfold ddaStep
  rw [hc]
  simp

lemma ddaStep_y (m : Map) (s : RaySetup α) (st : DDAState α)
    (hc : EF.blt st.sideX st.sideY = false) :
    (ddaStep m s st).sideX = st.sideX ∧
    (ddaStep m s st).sideY = st.sideY.add s.deltaY ∧
    (ddaStep m s st).hitSide = 1 ∧
    (ddaStep m s st).depth = st.depth + 1 := by
  unfold ddaStep
  rw [hc]
  simp

lemma InvX_step (m : Map) (s : RaySetup α) (δ dxv : α)
    (hdx : s.deltaX = EF.fin dxv) (hdxv : dxv ≤ δ) (hδ : 0 ≤ δ)
    (st : DDAState α) (hI : InvX s δ st) : InvX s δ (ddaStep m s st) := by
  obtain ⟨⟨v, hv, hvb⟩, haux, _⟩ := hI
  rcases hc : EF.blt st.sideX st.sideY with hc | hc
  · -- comparison false: Y axis is advanced, Y side was at most the X side
    obtain ⟨hNx, hNy, hNh, hNd⟩ := ddaStep_y m s st hc
    have hsYfin : ∃ w, st.sideY = EF.fin w ∧ w ≤ v := by
      cases hsy : st.sideY with
      | fin w =>
        refine ⟨w, rfl, ?_⟩
        rw [hv, hsy] at hc
        simp only [EF.blt, decide_eq_false_iff_not, not_lt] at hc
        exact hc
      | inf =>
        rw [hv, hsy] at hc
        simp [EF.blt] at hc
    obtain ⟨w, hw, hwv⟩ := hsYfin
    obtain ⟨dyv, hdy⟩ : ∃ dyv, s.deltaY = EF.fin dyv := by
      cases hdy : s.deltaY with
      | fin dyv => exact ⟨dyv, rfl⟩
      | inf => exact absurd ((haux hdy).symm.trans hw) (by simp)
    refine ⟨⟨v, ?_, ?_⟩, ?_, ?_⟩
    · rw [hNx]
      exact hv
    · rw [hNd]
      push_cast
      nlinarith
    · intro habs
      rw [hdy] at habs
      exact absurd habs (by simp)
    · intro _
      unfold perpOf
      rw [hNh, if_neg (by norm_num : (1 : ℕ) ≠ 0), hNy, hw, hdy, hNd]
      simp only [EF.add, EF.val]
      have hsimp : w + dyv - dyv = w := by ring
      rw [hsimp, TILE_cast]
      push_cast
      nlinarith
  · -- comparison true: X axis is advanced
    obtain ⟨hNx, hNy, hNh, hNd⟩ := ddaStep_x m s st hc
    refine ⟨⟨v + dxv, ?_, ?_⟩, ?_, ?_⟩
    · rw [hNx, hv, hdx]
      simp [EF.add]
    · rw [hNd]
      push_cast
      nlinarith
    · intro habs
      rw [hNy]
      exact haux habs
    · intro _
      unfold perpOf
      rw [hNh, if_pos rfl, hNx, hv, hdx, hNd]
      simp only [EF.add, EF.val]
      have hsimp : v + dxv - dxv = v := by ring
      rw [hsimp, TILE_cast]
      push_cast
      nlinarith


lemma InvY_step (m : Map) (s : RaySetup α) (δ dyv : α)
    (hdy : s.deltaY = EF.fin dyv) (hdyv : dyv ≤ δ) (hδ : 0 ≤ δ)
    (st : DDAState α) (hI : InvY s δ st) : InvY s δ (ddaStep m s st) := by
  obtain ⟨⟨w, hw, hwb⟩, haux, _⟩ := hI
  rcases hc : EF.blt st.sideX st.sideY with hc | hc
  · -- comparison false: Y axis is advanced
    obtain ⟨hNx, hNy, hNh, hNd⟩ := ddaStep_y m s st hc
    refine ⟨⟨w + dyv, ?_, ?_⟩, ?_, ?_⟩
    · rw [hNy, hw, hdy]
      simp [EF.add]
    · rw [hNd]
      push_cast
      nlinarith
    · intro habs
      rw [hNx]
      exact haux habs
    · intro _
      unfold perpOf
      rw [hNh, if_neg (by norm_num : (1 : ℕ) ≠ 0), hNy, hw, hdy, hNd]
      simp only [EF.add, EF.val]
      have hsimp : w + dyv - dyv = w := by ring
      rw [hsimp, TILE_cast]
      push_cast
      nlinarith
  · -- comparison true: X axis is advanced, X side was below the Y side
    obtain ⟨hNx, hNy, hNh, hNd⟩ := ddaStep_x m s st hc
    obtain ⟨v, hv, hvw⟩ : ∃ v, st.sideX = EF.fin v ∧ v < w := by
      cases hsx : st.sideX with
      | fin v =>
        refine ⟨v, rfl, ?_⟩
        rw [hsx, hw] at hc
        simp only [EF.blt, decide_eq_true_eq] at hc
        exact hc
      | inf =>
        rw [hsx] at hc
        simp [EF.blt] at hc
    obtain ⟨dxv, hdx⟩ : ∃ dxv, s.deltaX = EF.fin dxv := by
      cases hdx : s.deltaX with
      | fin d => exact ⟨d, rfl⟩
      | inf => exact absurd ((haux hdx).symm.trans hv) (by simp)
    refine ⟨⟨w, ?_, ?_⟩, ?_, ?_⟩
    · rw [hNy]
      exact hw
    · rw [hNd]
      push_cast
      nlinarith
    · intro habs
      rw [hdx] at habs
      exact absurd habs (by simp)
    · intro _
      unfold perpOf
      rw [hNh, if_pos rfl, hNx, hv, hdx, hNd]
      simp only [EF.add, EF.val]
      have hsimp : v + dxv - dxv = v := by ring
      rw [hsimp, TILE_cast]
      push_cast
      nlinarith

lemma InvX_run (m : Map) (s : RaySetup α) (δ dxv : α)
    (hdx : s.deltaX = EF.fin dxv) (hdxv : dxv ≤ δ) (hδ : 0 ≤ δ) (maxD : ℕ) :
    ∀ (fuel : ℕ) (st : DDAState α), InvX s δ st →
      InvX s δ (ddaRun m s maxD fuel st) := by
  intro fuel
  induction fuel with
  | zero => intro st h; exact h
  | succ n ih =>
    intro st h
    rw [ddaRun]
    split
    next => exact ih _ (InvX_step m s δ dxv hdx hdxv hδ st h)
    next => exact h

lemma InvY_run (m : Map) (s : RaySetup α) (δ dyv : α)
    (hdy : s.deltaY = EF.fin dyv) (hdyv : dyv ≤ δ) (hδ : 0 ≤ δ) (maxD : ℕ) :
    ∀ (fuel : ℕ) (st : DDAState α), InvY s δ st →
      InvY s δ (ddaRun m s maxD fuel st) := by
  intro fuel
  induction fuel with
  | zero => intro st h; exact h
  | succ n ih =>
    intro st h
    rw [ddaRun]
    split
    next => exact ih _ (InvY_step m s δ dyv hdy hdyv hδ st h)
    next => exact h

lemma raySetup_sideX_fin (rdx rdy px py dxv : α)
    (hd : recipAbs rdx = EF.fin dxv) (hdxv0 : 0 ≤ dxv) :
    ∃ v, (raySetup rdx rdy px py).st.sideX = EF.fin v ∧ 0 ≤ v ∧ v ≤ dxv := by
  simp only [raySetup]
  by_cases hneg : rdx < 0
  · rw [if_pos hneg, hd]
    refine ⟨_, rfl, ?_, ?_⟩
    · exact mul_nonneg (Int.fract_nonneg _) hdxv0
    · exact mul_le_of_le_one_left hdxv0 (le_of_lt (Int.fract_lt_one _))
  · rw [if_neg hneg, hd]
    refine ⟨_, rfl, ?_, ?_⟩
    · have h1 := Int.fract_lt_one (px / (TILE_SIZE : α))
      have heq : ((⌊px / (TILE_SIZE : α)⌋ : α) + 1 - px / (TILE_SIZE : α)) =
          1 - Int.fract (px / (TILE_SIZE : α)) := by
        unfold Int.fract
        ring
      rw [heq]
      nlinarith [hdxv0]
    · have h0 := Int.fract_nonneg (px / (TILE_SIZE : α))
      have heq : ((⌊px / (TILE_SIZE : α)⌋ : α) + 1 - px / (TILE_SIZE : α)) =
          1 - Int.fract (px / (TILE_SIZE : α)) := by
        unfold Int.fract
        ring
      rw [heq]
      nlinarith [hdxv0]

lemma raySetup_sideY_fin (rdx rdy px py dyv : α)
    (hd : recipAbs rdy = EF.fin dyv) (hdyv0 : 0 ≤ dyv) :
    ∃ w, (raySetup rdx rdy px py).st.sideY = EF.fin w ∧ 0 ≤ w ∧ w ≤ dyv := by
  simp only [raySetup]
  by_cases hneg : rdy < 0
  · rw [if_pos hneg, hd]
    refine ⟨_, rfl, ?_, ?_⟩
    · exact mul_nonneg (Int.fract_nonneg _) hdyv0
    · exact mul_le_of_le_one_left hdyv0 (le_of_lt (Int.fract_lt_one _))
  · rw [if_neg hneg, hd]
    refine ⟨_, rfl, ?_, ?_⟩
    · have h1 := Int.fract_lt_one (py / (TILE_SIZE : α))
      have heq : ((⌊py / (TILE_SIZE : α)⌋ : α) + 1 - py / (TILE_SIZE : α)) =
          1 - Int.fract (py / (TILE_SIZE : α)) := by
        unfold Int.fract
        ring
      rw [heq]
      nlinarith [hdyv0]
    · have h0 := Int.fract_nonneg (py / (TILE_SIZE : α))
      have heq : ((⌊py / (TILE_SIZE : α)⌋ : α) + 1 - py / (TILE_SIZE : α)) =
          1 - Int.fract (py / (TILE_SIZE : α)) := by
        unfold Int.fract
        ring
      rw [heq]
      nlinarith [hdyv0]

lemma raySetup_sideY_inf (rdx rdy px py : α) (hd : recipAbs rdy = EF.inf) :
    (raySetup rdx rdy px py).st.sideY = EF.inf := by
  simp only [raySetup]
  by_cases hneg : rdy < 0
  · rw [if_pos hneg, hd]
    rfl
  · rw [if_neg hneg, hd]
    rfl

lemma raySetup_sideX_inf (rdx rdy px py : α) (hd : recipAbs rdx = EF.inf) :
    (raySetup rdx rdy px py).st.sideX = EF.inf := by
  simp only [raySetup]
  by_cases hneg : rdx < 0
  · rw [if_pos hneg, hd]
    rfl
  · rw [if_neg hneg, hd]
    rfl


/-- After at least one DDA step, running with fuel `maxD` from the setup
state reaches depth at least 1. -/
lemma rayHitState_depth_ge_one (m : Map) (maxD : ℕ) (rdx rdy px py : α)
    (hD : 1 ≤ maxD) :
    1 ≤ (rayHitState m maxD rdx rdy px py).depth := by
  unfold rayHitState
  obtain ⟨n, rfl⟩ : ∃ n, maxD = n + 1 := ⟨maxD - 1, by omega⟩
  have hdep0 : (raySetup rdx rdy px py).st.depth = 0 := rfl
  rw [ddaRun, if_pos ⟨rfl, show (raySetup rdx rdy px py).st.depth < n + 1 by omega⟩]
  have h1 := ddaRun_depth_ge m (raySetup rdx rdy px py) (n + 1) n
    (ddaStep m (raySetup rdx rdy px py) (raySetup rdx rdy px py).st)
  rw [ddaStep_depth] at h1
  omega

/-- The raw perpendicular distance of any ray whose direction has a
component of absolute value at least `1/2` is at most
`2 * maxDepth * 64` world units. -/
lemma rayPerpRaw_le (m : Map) (maxD : ℕ) (rdx rdy px py : α)
    (h : 1 / 2 ≤ |rdx| ∨ 1 / 2 ≤ |rdy|) (hD : 1 ≤ maxD) :
    rayPerpRaw m maxD rdx rdy px py ≤ 2 * (maxD : α) * 64 := by
  have hdepth1 := rayHitState_depth_ge_one m maxD rdx rdy px py hD
  have hdepthle : (rayHitState m maxD rdx rdy px py).depth ≤ maxD := by
    unfold rayHitState
    exact ddaRun_depth_le m _ maxD maxD _ (Nat.zero_le _)
  have hcast : ((rayHitState m maxD rdx rdy px py).depth : α) ≤ (maxD : α) := by
    exact_mod_cast hdepthle
  rcases h with hx | hy
  · have hne : rdx ≠ 0 := by
      intro h0
      rw [h0] at hx
      simp at hx
      linarith
    have hd : recipAbs rdx = EF.fin |1 / rdx| := by
      unfold recipAbs
      rw [if_pos hne]
    have hpos : (0 : α) < |rdx| := lt_of_lt_of_le (by norm_num) hx
    have hdxv : |1 / rdx| ≤ 2 := by
      rw [abs_div, abs_one, div_le_iff₀ hpos]
      linarith
    obtain ⟨v, hv, hv0, hvd⟩ :=
      raySetup_sideX_fin rdx rdy px py _ hd (abs_nonneg _)
    have hInv0 : InvX (raySetup rdx rdy px py) 2 (raySetup rdx rdy px py).st := by
      refine ⟨⟨v, hv, ?_⟩, ?_, ?_⟩
      · have hdep : (raySetup rdx rdy px py).st.depth = 0 := rfl
        rw [hdep]
        push_cast
        linarith
      · intro habs
        exact raySetup_sideY_inf rdx rdy px py habs
      · intro habs
        have hdep : (raySetup rdx rdy px py).st.depth = 0 := rfl
        rw [hdep] at habs
        omega
    have hInv := InvX_run m (raySetup rdx rdy px py) 2 _
      (show (raySetup rdx rdy px py).deltaX = EF.fin |1 / rdx| from hd)
      hdxv (by norm_num) maxD maxD _ hInv0
    obtain ⟨_, _, hperp⟩ := hInv
    have hfinal := hperp hdepth1
    unfold rayPerpRaw
    calc perpOf (raySetup rdx rdy px py) (rayHitState m maxD rdx rdy px py) ≤
        2 * ((rayHitState m maxD rdx rdy px py).depth : α) * 64 := hfinal
      _ ≤ 2 * (maxD : α) * 64 := by nlinarith
  · have hne : rdy ≠ 0 := by
      intro h0
      rw [h0] at hy
      simp at hy
      linarith
    have hd : recipAbs rdy = EF.fin |1 / rdy| := by
      unfold recipAbs
      rw [if_pos hne]
    have hpos : (0 : α) < |rdy| := lt_of_lt_of_le (by norm_num) hy
    have hdyv : |1 / rdy| ≤ 2 := by
      rw [abs_div, abs_one, div_le_iff₀ hpos]
      linarith
    obtain ⟨w, hw, hw0, hwd⟩ :=
      raySetup_sideY_fin rdx rdy px py _ hd (abs_nonneg _)
    have hInv0 : InvY (raySetup rdx rdy px py) 2 (raySetup rdx rdy px py).st := by
      refine ⟨⟨w, hw, ?_⟩, ?_, ?_⟩
      · have hdep : (raySetup rdx rdy px py).st.depth = 0 := rfl
        rw [hdep]
        push_cast
        linarith
      · intro habs
        exact raySetup_sideX_inf rdx rdy px py habs
      · intro habs
        have hdep : (raySetup rdx rdy px py).st.depth = 0 := rfl
        rw [hdep] at habs
        omega
    have hInv := InvY_run m (raySetup rdx rdy px py) 2 _
      (show (raySetup rdx rdy px py).deltaY = EF.fin |1 / rdy| from hd)
      hdyv (by norm_num) maxD maxD _ hInv0
    obtain ⟨_, _, hperp⟩ := hInv
    have hfinal := hperp hdepth1
    unfold rayPerpRaw
    calc perpOf (raySetup rdx rdy px py) (rayHitState m maxD rdx rdy px py) ≤
        2 * ((rayHitState m maxD rdx rdy px py).depth : α) * 64 := hfinal
      _ ≤ 2 * (maxD : α) * 64 := by nlinarith


/-! ### Bounds on the derived quantities (claims C4 and C7) -/

lemma cos_sin_half (θ : ℝ) : 1 / 2 ≤ |Real.cos θ| ∨ 1 / 2 ≤ |Real.sin θ| := by
  by_contra hcon
  push_neg at hcon
  obtain ⟨h1, h2⟩ := hcon
  have hc := Real.sin_sq_add_cos_sq θ
  nlinarith [abs_nonneg (Real.cos θ), abs_nonneg (Real.sin θ),
    sq_abs (Real.cos θ), sq_abs (Real.sin θ)]

/-- With fisheye correction on, the render distance is between the clamp
value `0.0001` and `2 * maxDepth * 64`. -/
lemma castRayDistance_bounds (maxD : ℕ) (m : Map) (θ pa px py : ℝ)
    (hD : 1 ≤ maxD) :
    1 / 10000 ≤ castRayDistance true maxD m θ pa px py ∧
    castRayDistance true maxD m θ pa px py ≤ 2 * (maxD : ℝ) * 64 := by
  unfold castRayDistance
  rw [if_pos rfl]
  unfold rayPerp
  constructor
  · exact le_max_right _ _
  · apply max_le
    · exact rayPerpRaw_le m maxD _ _ px py (cos_sin_half θ) hD
    · have h1 : (1 : ℝ) ≤ (maxD : ℝ) := by exact_mod_cast hD
      nlinarith

lemma pyInt_ge_one {q : α} (h : 1 ≤ q) : 1 ≤ pyInt q := by
  unfold pyInt
  rw [if_neg (by linarith)]
  exact Int.le_floor.mpr (by exact_mod_cast h)

lemma wallHeightOf_pos (d : ℝ) (h1 : 0 < d) (h2 : d ≤ 46080) :
    0 < wallHeightOf 720 d := by
  unfold wallHeightOf
  have hq : (1 : ℝ) ≤ (TILE_SIZE : ℝ) / d * ((720 : ℕ) : ℝ) := by
    rw [TILE_cast]
    have heq : (64 : ℝ) / d * ((720 : ℕ) : ℝ) = 46080 / d := by
      push_cast
      ring
    rw [heq, le_div_iff₀ h1]
    linarith
  have := pyInt_ge_one hq
  omega

lemma shadeOf_range (d : α) : 40 ≤ shadeOf d ∧ shadeOf d ≤ 255 :=
  ⟨le_max_left _ _, max_le (by norm_num) (min_le_left _ _)⟩

lemma darken_range (sh : ℤ) (h1 : 40 ≤ sh) (h2 : sh ≤ 255) :
    30 ≤ pyInt ((sh : ℝ) * (3 / 4)) ∧ pyInt ((sh : ℝ) * (3 / 4)) ≤ 255 := by
  have hsh : (40 : ℝ) ≤ (sh : ℝ) := by exact_mod_cast h1
  have hsh2 : (sh : ℝ) ≤ 255 := by exact_mod_cast h2
  unfold pyInt
  rw [if_neg (by push_neg; nlinarith)]
  constructor
  · exact Int.le_floor.mpr (by push_cast; nlinarith)
  · have hfl := Int.floor_le ((sh : ℝ) * (3 / 4))
    have : ((⌊(sh : ℝ) * (3 / 4)⌋ : ℝ)) ≤ 255 := by nlinarith
    exact_mod_cast this

/-- Entry `i` of `castAll` is the pair computed for the ray of column
`i`. -/
lemma castAll_getD (screen_width screen_height : ℕ) (fov : ℝ) (maxD : ℕ)
    (p : Player ℝ) (m : Map) (i : ℕ) (h : i < screen_width) :
    (castAll screen_width screen_height fov maxD p m).getD i (0, 0) =
      ((castRay FISHEYE_CORRECTION maxD screen_height m
          ((p.angle - fov / 2) + (i : ℝ) * (fov / (screen_width : ℝ)))
          p.angle p.x p.y).1,
        if (castRay FISHEYE_CORRECTION maxD screen_height m
            ((p.angle - fov / 2) + (i : ℝ) * (fov / (screen_width : ℝ)))
            p.angle p.x p.y).2.2 = 1
        then pyInt (((castRay FISHEYE_CORRECTION maxD screen_height m
            ((p.angle - fov / 2) + (i : ℝ) * (fov / (screen_width : ℝ)))
            p.angle p.x p.y).2.1 : ℝ) * (3 / 4))
        else (castRay FISHEYE_CORRECTION maxD screen_height m
            ((p.angle - fov / 2) + (i : ℝ) * (fov / (screen_width : ℝ)))
            p.angle p.x p.y).2.1) := by
  unfold castAll
  rw [List.getD_eq_getElem?_getD, List.getElem?_map, List.getElem?_range h]
  rfl


lemma castRay_proj (f : Bool) (maxD sh : ℕ) (m : Map) (θ pa px py : ℝ) :
    (castRay f maxD sh m θ pa px py).1 =
      wallHeightOf sh (castRayDistance f maxD m θ pa px py) ∧
    (castRay f maxD sh m θ pa px py).2.1 =
      shadeOf (castRayDistance f maxD m θ pa px py) ∧
    (castRay f maxD sh m θ pa px py).2.2 =
      (rayHitState m maxD (Real.cos θ) (Real.sin θ) px py).hitSide :=
  ⟨rfl, rfl, rfl⟩

/-! ### Claim C4 -/

/-- C4: for every viewer pose and map, `castAllColumns` (at the game
configuration: 1280x720 screen, `fov = π/3`, `maxDepth = 20`) returns an
ordered sequence of exactly `screenWidth = 1280` pairs; entry `i` is the
pair computed from the ray at angle
`heading - fov/2 + i * (fov / screenWidth)` (with the north/south-face
darkening applied by the caller); every `wallSliceHeight` is a positive
integer and every shade is an integer in `[0, 255]`. -/
theorem claim_C4 (p : Player ℝ) (m : Map) :
    (castAllGame p m).length = 1280 ∧
    ∀ i : ℕ, i < 1280 →
      (castAllGame p m).getD i (0, 0) =
        ((castRay true 20 720 m (p.angle - FOV / 2 + (i : ℝ) * (FOV / 1280))
            p.angle p.x p.y).1,
          if (castRay true 20 720 m (p.angle - FOV / 2 + (i : ℝ) * (FOV / 1280))
              p.angle p.x p.y).2.2 = 1
          then pyInt (((castRay true 20 720 m
              (p.angle - FOV / 2 + (i : ℝ) * (FOV / 1280))
              p.angle p.x p.y).2.1 : ℝ) * (3 / 4))
          else (castRay true 20 720 m
              (p.angle - FOV / 2 + (i : ℝ) * (FOV / 1280))
              p.angle p.x p.y).2.1) ∧
      0 < ((castAllGame p m).getD i (0, 0)).1 ∧
      0 ≤ ((castAllGame p m).getD i (0, 0)).2 ∧
      ((castAllGame p m).getD i (0, 0)).2 ≤ 255 := by
  constructor
  · show (castAll 1280 720 (Real.pi / 3) 20 p m).length = 1280
    unfold castAll
    simp
  · intro i hi
    have hentry := castAll_getD 1280 720 (Real.pi / 3) 20 p m i hi
    have hang : (p.angle - Real.pi / 3 / 2) +
        (i : ℝ) * (Real.pi / 3 / ((1280 : ℕ) : ℝ)) =
        p.angle - FOV / 2 + (i : ℝ) * (FOV / 1280) := by
      unfold FOV
      norm_num
    rw [hang] at hentry
    have hentry2 : (castAllGame p m).getD i (0, 0) =
        ((castRay true 20 720 m (p.angle - FOV / 2 + (i : ℝ) * (FOV / 1280))
            p.angle p.x p.y).1,
          if (castRay true 20 720 m (p.angle - FOV / 2 + (i : ℝ) * (FOV / 1280))
              p.angle p.x p.y).2.2 = 1
          then pyInt (((castRay true 20 720 m
              (p.angle - FOV / 2 + (i : ℝ) * (FOV / 1280))
              p.angle p.x p.y).2.1 : ℝ) * (3 / 4))
          else (castRay true 20 720 m
              (p.angle - FOV / 2 + (i : ℝ) * (FOV / 1280))
              p.angle p.x p.y).2.1) := hentry
    obtain ⟨hd1, hd2⟩ := castRayDistance_bounds 20 m
      (p.angle - FOV / 2 + (i : ℝ) * (FOV / 1280)) p.angle p.x p.y (by norm_num)
    have hdpos : (0 : ℝ) <
        castRayDistance true 20 m (p.angle - FOV / 2 + (i : ℝ) * (FOV / 1280))
          p.angle p.x p.y := lt_of_lt_of_le (by norm_num) hd1
    have hdle : castRayDistance true 20 m
        (p.angle - FOV / 2 + (i : ℝ) * (FOV / 1280)) p.angle p.x p.y ≤ 46080 := by
      refine le_trans hd2 ?_
      norm_num
    obtain ⟨hp1, hp2, hp3⟩ := castRay_proj true 20 720 m
      (p.angle - FOV / 2 + (i : ℝ) * (FOV / 1280)) p.angle p.x p.y
    have hsh := shadeOf_range (castRayDistance true 20 m
      (p.angle - FOV / 2 + (i : ℝ) * (FOV / 1280)) p.angle p.x p.y)
    refine ⟨hentry2, ?_, ?_, ?_⟩
    · rw [hentry2]
      simp only [hp1]
      exact wallHeightOf_pos _ hdpos hdle
    · rw [hentry2]
      by_cases hside : (castRay true 20 720 m
          (p.angle - FOV / 2 + (i : ℝ) * (FOV / 1280)) p.angle p.x p.y).2.2 = 1
      · simp only [hside, if_pos rfl]
        have := darken_range _ (hp2 ▸ hsh.1) (hp2 ▸ hsh.2)
        omega
      · simp only [if_neg hside]
        rw [hp2]
        omega
    · rw [hentry2]
      by_cases hside : (castRay true 20 720 m
          (p.angle - FOV / 2 + (i : ℝ) * (FOV / 1280)) p.angle p.x p.y).2.2 = 1
      · simp only [hside, if_pos rfl]
        have := darken_range _ (hp2 ▸ hsh.1) (hp2 ▸ hsh.2)
        omega
      · simp only [if_neg hside]
        rw [hp2]
        omega


/-- Witness for C4: the pose `(0, 0, 0)` on the built-in map, column 0. -/
theorem claim_C4_witness :
    (castAllGame ⟨0, 0, 0⟩ builtinMap).length = 1280 ∧
    0 < ((castAllGame ⟨0, 0, 0⟩ builtinMap).getD 0 (0, 0)).1 ∧
    0 ≤ ((castAllGame ⟨0, 0, 0⟩ builtinMap).getD 0 (0, 0)).2 ∧
    ((castAllGame ⟨0, 0, 0⟩ builtinMap).getD 0 (0, 0)).2 ≤ 255 :=
  ⟨(claim_C4 ⟨0, 0, 0⟩ builtinMap).1,
   ((claim_C4 ⟨0, 0, 0⟩ builtinMap).2 0 (by norm_num)).2.1,
   ((claim_C4 ⟨0, 0, 0⟩ builtinMap).2 0 (by norm_num)).2.2.1,
   ((claim_C4 ⟨0, 0, 0⟩ builtinMap).2 0 (by norm_num)).2.2.2⟩

/-! ### Claim C7 -/

/-- C7 (amended): every per-column shade delivered by `castAllColumns` is
an integer in `[30, 255]` — columns whose ray hit an east/west face carry
the `shadeOf` value in `[40, 255]`, and columns whose ray hit a
north/south face carry the darkened value `int(shade * 0.75)`, which can
be as low as `30` (not `40` as originally claimed). -/
theorem claim_C7 (p : Player ℝ) (m : Map) (i : ℕ) (hi : i < 1280) :
    30 ≤ ((castAllGame p m).getD i (0, 0)).2 ∧
    ((castAllGame p m).getD i (0, 0)).2 ≤ 255 := by
  have hentry := castAll_getD 1280 720 (Real.pi / 3) 20 p m i hi
  have hentry2 : (castAllGame p m).getD i (0, 0) =
      ((castRay FISHEYE_CORRECTION 20 720 m
          ((p.angle - Real.pi / 3 / 2) + (i : ℝ) * (Real.pi / 3 / ((1280 : ℕ) : ℝ)))
          p.angle p.x p.y).1,
        if (castRay FISHEYE_CORRECTION 20 720 m
            ((p.angle - Real.pi / 3 / 2) + (i : ℝ) * (Real.pi / 3 / ((1280 : ℕ) : ℝ)))
            p.angle p.x p.y).2.2 = 1
        then pyInt (((castRay FISHEYE_CORRECTION 20 720 m
            ((p.angle - Real.pi / 3 / 2) + (i : ℝ) * (Real.pi / 3 / ((1280 : ℕ) : ℝ)))
            p.angle p.x p.y).2.1 : ℝ) * (3 / 4))
        else (castRay FISHEYE_CORRECTION 20 720 m
            ((p.angle - Real.pi / 3 / 2) + (i : ℝ) * (Real.pi / 3 / ((1280 : ℕ) : ℝ)))
            p.angle p.x p.y).2.1) := hentry
  rw [hentry2]
  obtain ⟨hp1, hp2, hp3⟩ := castRay_proj FISHEYE_CORRECTION 20 720 m
    ((p.angle - Real.pi / 3 / 2) + (i : ℝ) * (Real.pi / 3 / ((1280 : ℕ) : ℝ)))
    p.angle p.x p.y
  have hsh := shadeOf_range (castRayDistance FISHEYE_CORRECTION 20 m
    ((p.angle - Real.pi / 3 / 2) + (i : ℝ) * (Real.pi / 3 / ((1280 : ℕ) : ℝ)))
    p.angle p.x p.y)
  by_cases hside : (castRay FISHEYE_CORRECTION 20 720 m
      ((p.angle - Real.pi / 3 / 2) + (i : ℝ) * (Real.pi / 3 / ((1280 : ℕ) : ℝ)))
      p.angle p.x p.y).2.2 = 1
  · simp only [hside, if_pos rfl]
    have := darken_range _ (hp2 ▸ hsh.1) (hp2 ▸ hsh.2)
    omega
  · simp only [if_neg hside]
    rw [hp2]
    omega

/-- Witness for C7: pose `(0, 0, 0)` on the built-in map, column 0. -/
theorem claim_C7_witness :
    30 ≤ ((castAllGame ⟨0, 0, 0⟩ builtinMap).getD 0 (0, 0)).2 ∧
    ((castAllGame ⟨0, 0, 0⟩ builtinMap).getD 0 (0, 0)).2 ≤ 255 :=
  claim_C7 ⟨0, 0, 0⟩ builtinMap 0 (by norm_num)


/-- Corrected distance of a southward axis-aligned ray (`angle = π/2`)
cast from a cell center toward a wall `k` tiles south. -/
lemma castRayDistance_south_center (m : Map) (c0 r0 : ℤ) (k maxD : ℕ)
    (hk : 1 ≤ k) (hmd : k ≤ maxD)
    (hempty : ∀ j : ℕ, 1 ≤ j → j < k → m.get_tile c0 (r0 + j) ≠ Map.WALL)
    (hwall : m.get_tile c0 (r0 + k) = Map.WALL) :
    castRayDistance true maxD m (Real.pi / 2) (Real.pi / 2)
        (64 * (c0 : ℝ) + 32) (64 * (r0 : ℝ) + 32) = ((k : ℝ) - 1 / 2) * 64 := by
  unfold castRayDistance
  rw [if_pos rfl, Real.cos_pi_div_two, Real.sin_pi_div_two]
  unfold rayPerp rayPerpRaw
  rw [raySetup_south_center, rayHitState_south_center m c0 r0 k maxD hk hmd hempty hwall]
  unfold perpOf
  rw [if_neg (by norm_num : (1 : ℕ) ≠ 0)]
  simp only [EF.val]
  rw [TILE_cast]
  have hk1 : (1 : ℝ) ≤ (k : ℝ) := by exact_mod_cast hk
  have heq : ((k : ℝ) + 1 / 2 - 1) * 64 = ((k : ℝ) - 1 / 2) * 64 := by ring
  rw [heq, max_eq_left (by nlinarith)]

/-- And its hit side is the north/south face. -/
lemma castRay_hitSide_south_center (m : Map) (c0 r0 : ℤ) (k maxD : ℕ)
    (hk : 1 ≤ k) (hmd : k ≤ maxD)
    (hempty : ∀ j : ℕ, 1 ≤ j → j < k → m.get_tile c0 (r0 + j) ≠ Map.WALL)
    (hwall : m.get_tile c0 (r0 + k) = Map.WALL) :
    (rayHitState m maxD (Real.cos (Real.pi / 2)) (Real.sin (Real.pi / 2))
        (64 * (c0 : ℝ) + 32) (64 * (r0 : ℝ) + 32)).hitSide = 1 := by
  rw [Real.cos_pi_div_two, Real.sin_pi_div_two,
    rayHitState_south_center m c0 r0 k maxD hk hmd hempty hwall]

lemma shadeOf_864 : shadeOf (864 : ℝ) = 40 := by
  unfold shadeOf pyInt
  rw [TILE_cast]
  have h243 : (864 : ℝ) / 64 * 18 = 243 := by norm_num
  rw [h243, if_neg (by norm_num)]
  have hfl : ⌊(243 : ℝ)⌋ = 243 := by
    rw [Int.floor_eq_iff]
    norm_num
  rw [hfl]
  norm_num

/-- Counterexample to C7 as stated: at pose `(96, 96, π/2)` on the
built-in map, the center column 640 casts a ray straight south along the
open corridor of column 1, hits the north/south face of the bottom wall
13.5 tiles away, gets base shade 40, and the caller darkens it to
`int(40 * 0.75) = 30 < 40`. -/
theorem claim_C7_counterexample :
    ((castAllGame ⟨96, 96, Real.pi / 2⟩ builtinMap).getD 640 (0, 0)).2 = 30 ∧
    ((castAllGame ⟨96, 96, Real.pi / 2⟩ builtinMap).getD 640 (0, 0)).2 < 40 := by
  have hempty : ∀ j : ℕ, 1 ≤ j → j < 14 →
      builtinMap.get_tile 1 (1 + (j : ℤ)) ≠ Map.WALL := by
    intro j h1 h2
    interval_cases j <;> decide
  have hwall : builtinMap.get_tile 1 (1 + ((14 : ℕ) : ℤ)) = Map.WALL := by decide
  have h96 : (96 : ℝ) = 64 * ((1 : ℤ) : ℝ) + 32 := by norm_num
  have hentry := castAll_getD 1280 720 (Real.pi / 3) 20
    ⟨96, 96, Real.pi / 2⟩ builtinMap 640 (by norm_num)
  have hpa : (⟨96, 96, Real.pi / 2⟩ : Player ℝ).angle = Real.pi / 2 := rfl
  have hpx : (⟨96, 96, Real.pi / 2⟩ : Player ℝ).x = 96 := rfl
  have hpy : (⟨96, 96, Real.pi / 2⟩ : Player ℝ).y = 96 := rfl
  rw [hpa, hpx, hpy] at hentry
  have hang : (Real.pi / 2 - Real.pi / 3 / 2) +
      ((640 : ℕ) : ℝ) * (Real.pi / 3 / ((1280 : ℕ) : ℝ)) = Real.pi / 2 := by
    push_cast
    ring
  rw [hang] at hentry
  obtain ⟨hp1, hp2, hp3⟩ := castRay_proj FISHEYE_CORRECTION 20 720 builtinMap
    (Real.pi / 2) (Real.pi / 2) 96 96
  have hside : (castRay FISHEYE_CORRECTION 20 720 builtinMap (Real.pi / 2)
      (Real.pi / 2) 96 96).2.2 = 1 := by
    rw [hp3, h96]
    exact castRay_hitSide_south_center builtinMap 1 1 14 20 (by norm_num)
      (by norm_num) hempty hwall
  have hdist : castRayDistance FISHEYE_CORRECTION 20 builtinMap (Real.pi / 2)
      (Real.pi / 2) 96 96 = 864 := by
    show castRayDistance true 20 builtinMap (Real.pi / 2) (Real.pi / 2) 96 96 = 864
    rw [h96]
    rw [castRayDistance_south_center builtinMap 1 1 14 20 (by norm_num)
      (by norm_num) hempty hwall]
    norm_num
  have hshade : (castRay FISHEYE_CORRECTION 20 720 builtinMap (Real.pi / 2)
      (Real.pi / 2) 96 96).2.1 = 40 := by
    rw [hp2, hdist]
    exact shadeOf_864
  unfold castAllGame
  rw [hentry]
  simp only [hside, if_pos rfl, hshade]
  have h30 : pyInt (((40 : ℤ) : ℝ) * (3 / 4)) = 30 := by
    unfold pyInt
    rw [if_neg (by push_cast; norm_num)]
    have heq : ((40 : ℤ) : ℝ) * (3 / 4) = 30 := by push_cast; norm_num
    rw [heq]
    have : ⌊(30 : ℝ)⌋ = 30 := by
      rw [Int.floor_eq_iff]
      norm_num
    rw [this]
  rw [h30]
  norm_num

end NEA
